import Mathlib

/-!
Verification development for the ArcaneDB storage engine.

This file gives a shallow embedding, in Lean 4, of the parts of the engine
that the specification talks about:

* the lock-free WAL segment control word and its operations
  (`src/log_store/posix_log_store/log_segment.h`),
* the sealing / open protocol of the segment ring
  (`src/log_store/posix_log_store/posix_log_store.cpp`),
* the OCC transaction context: write set, read set, intent writing,
  read validation, commit/abort stamping
  (`src/txn/txn_context_occ.cpp`),
* a versioned delta-chain page, modelled from the specification because the
  page implementation itself is not among the provided sources (only its
  test `test/btree/versioned_bwtree_page_test.cpp` is).

Machine words are embedded as `Nat` with explicit `% 2 ^ 64` where the C++
`uint64_t` arithmetic can wrap.  The CAS retry loops of the source are
embedded by their sequential (uncontended) semantics: a single atomic
update of the control word.
-/

namespace ArcaneDB

/-! ## Log segment control word (`log_segment.h`)

The control word is a 64-bit atomic packed as
`| IsSealed 1bit | Writer num 15bit | LsnOffset 48bit |`.
The accessors below are direct translations of the private static helpers
of `LogSegment`.
-/

namespace LogSegment

def kIsSealedOffset : Nat := 63

def kIsSealedMaskbit : Nat := 1

def kWriterNumOffset : Nat := 48

def kWriterNumMaskbit : Nat := 0x7FFF

def kLsnMaskbit : Nat := (1 <<< 48) - 1

def kMaximumWriterNum : Nat := kWriterNumMaskbit

/-- `IsSealed_`: `(control_bits >> kIsSealedOffset) & kIsSealedMaskbit`,
converted to `bool` by C++'s nonzero test. -/
def isSealed (w : Nat) : Bool := ((w >>> kIsSealedOffset) &&& kIsSealedMaskbit) != 0

/-- `MarkSealed_`: `control_bits | (1ul << kIsSealedOffset)`. -/
def markSealed (w : Nat) : Nat := w ||| (1 <<< kIsSealedOffset)

/-- `GetWriterNum_`: `(control_bits >> kWriterNumOffset) & kWriterNumMaskbit`. -/
def getWriterNum (w : Nat) : Nat := (w >>> kWriterNumOffset) &&& kWriterNumMaskbit

/-- `IncrWriterNum_`: `control_bits + (1ul << kWriterNumOffset)` in `uint64_t`. -/
def incrWriterNum (w : Nat) : Nat := (w + (1 <<< kWriterNumOffset)) % 2 ^ 64

/-- `DecrWriterNum_`: `control_bits - (1ul << kWriterNumOffset)` in `uint64_t`
(wrapping subtraction). -/
def decrWriterNum (w : Nat) : Nat := (w + (2 ^ 64 - (1 <<< kWriterNumOffset))) % 2 ^ 64

/-- `GetLsn_`: `control_bits & kLsnMaskbit`. -/
def getLsn (w : Nat) : Nat := w &&& kLsnMaskbit

/-- `BumpLsn_`: `control_bits + length` in `uint64_t`. -/
def bumpLsn (w length : Nat) : Nat := (w + length) % 2 ^ 64

/-! ## `AcquireControlGuard` (sequential semantics)

`AcquireControlGuard(length)` either refuses with "must seal" (record does
not fit), refuses with "must wait" (writer count saturated), or installs
`BumpLsn_(IncrWriterNum_(w), length)` via CAS.  The retry loop is embedded
by its uncontended effect: one successful update.
-/

inductive AcquireResult where
  | mustSeal : AcquireResult
  | mustWait : AcquireResult
  | acquired (w : Nat) : AcquireResult
deriving DecidableEq, Repr

def acquireControlGuard (w length size : Nat) : AcquireResult :=
  if size < getLsn w + length then .mustSeal
  else if kMaximumWriterNum < getWriterNum w + 1 then .mustWait
  else .acquired (bumpLsn (incrWriterNum w) length)

/-- `OnWriterExit`: decrement the writer count; schedule the io task when
`bool is_last_writer = GetWriterNum_(new_control_bits)` (the C++ bool
conversion: true exactly when the remaining count is nonzero) and the
segment is sealed.  Returns the new control word and whether the segment
state is moved to `kIo`. -/
def onWriterExit (w : Nat) : Nat × Bool :=
  let is_sealed := isSealed w
  let w' := decrWriterNum w
  let is_last_writer : Bool := getWriterNum w' != 0
  (w', is_last_writer && is_sealed)

/-- `TrySealLogSegment`: if already sealed return `none` and leave the word
unchanged, else CAS in the sealed bit and return
`GetLsn_(new_control_bits)`.  Returns the optional lsn and the new word. -/
def trySealLogSegment (w : Nat) : Option Nat × Nat :=
  if isSealed w then (none, w)
  else (some (getLsn (markSealed w)), markSealed w)

/-! ## Operation sequences over the control word -/

inductive LogOp where
  | acquire (length : Nat) : LogOp
  | writerExit : LogOp
  | trySeal : LogOp
deriving DecidableEq, Repr

/-- Effect of one operation on the control word alone (segment of byte
capacity `size`). -/
def stepWord (size w : Nat) : LogOp → Nat
  | .acquire length =>
      match acquireControlGuard w length size with
      | .acquired w' => w'
      | _ => w
  | .writerExit => (onWriterExit w).1
  | .trySeal => (trySealLogSegment w).2

def runWord (size : Nat) (w : Nat) (ops : List LogOp) : Nat :=
  ops.foldl (stepWord size) w

/-! ## Segment state and `SealAndOpen` -/

inductive LogSegmentState where
  | kFree : LogSegmentState
  | kOpen : LogSegmentState
  | kIo : LogSegmentState
deriving DecidableEq, Repr

structure Segment where
  state : LogSegmentState
  startLsn : Nat
  control : Nat
deriving DecidableEq, Repr

/-- `OpenLogSegmentAndSetLsn`: set `start_lsn_` and move the state to
`kOpen` (the source `CHECK`s the segment is `kFree` first; the model is
only applied to free segments). -/
def openLogSegmentAndSetLsn (s : Segment) (lsn : Nat) : Segment :=
  { s with startLsn := lsn, state := .kOpen }

/-- `PosixLogStore::SealAndOpen`: `TrySealLogSegment` on the current
segment; on success open the next segment, passing the value returned by
`TrySealLogSegment` as its start lsn.  `OpenNewLogSegment_` itself is
declared in a header that is not among the sources; it is
Modelled from the spec: "open the next segment with
`start_lsn = previous_sealed_end`", where the value handed over by
`SealAndOpen` is exactly `lsn.value()`, the lsn returned by
`TrySealLogSegment`.  Returns the sealed current segment and the newly
opened next segment. -/
def sealAndOpen (cur next : Segment) : Option (Segment × Segment) :=
  match trySealLogSegment cur.control with
  | (none, _) => none
  | (some lsn, w) => some ({ cur with control := w }, openLogSegmentAndSetLsn next lsn)

end LogSegment

/-! ## Timestamps

Modelled from the spec: a timestamp is a 64-bit unsigned value whose bit 63
is the `kLockedFlag` intent bit; `MarkLocked(read_ts)` stamps an intent;
`kAbortedTxnTs` is a distinct reserved marker meaning "this version is
dead" (the sentinel definitions live in a transaction header that is not
among the sources).  The model reserves the largest unlocked value for
`kAbortedTxnTs`.
-/

abbrev Ts := Nat

def kLockedFlag : Ts := 2 ^ 63

def markLocked (ts : Ts) : Ts := ts ||| kLockedFlag

def isLockedTs (ts : Ts) : Bool := (ts &&& kLockedFlag) != 0

def lockedUnmask (ts : Ts) : Ts := ts &&& (kLockedFlag - 1)

def kAbortedTxnTs : Ts := kLockedFlag - 1

/-! ## Versioned delta-chain page

Modelled from the spec: the `VersionedBwTreePage` implementation is not
among the sources (only its test is), so the page is embedded from §4.1 of
the specification: a newest-first chain of delta entries, each carrying one
sort key, one timestamp and either a row (insert/update) or a tombstone
(delete).  `GetRow` walks the chain newest to oldest and the first entry
for the requested sort key that is visible at the read timestamp decides
the result; an entry carrying the locked flag is visible exactly to the
owner identified by `opts.owner_ts`.  `SetTs` rewrites the timestamp of the
newest locked intent for the sort key.  Compaction is out of scope of the
claims and is not modelled.
-/

abbrev SubKey := String

abbrev SortKey := String

inductive Val where
  | vInt (i : Int) : Val
  | vStr (s : String) : Val
deriving DecidableEq, Repr

/-- A row owns its sort-key prefix and its column values. -/
structure Row where
  sortKey : SortKey
  cols : List Val
deriving DecidableEq, Repr

structure DeltaEntry where
  sk : SortKey
  ts : Ts
  val : Option Row
deriving DecidableEq, Repr

abbrev Page := List DeltaEntry

inductive ReadResult where
  | found (r : Row) (ts : Ts) : ReadResult
  | notFound : ReadResult
deriving DecidableEq, Repr

def entryVisible (e : DeltaEntry) (readTs : Ts) (ownerTs : Option Ts) : Bool :=
  if e.ts = kAbortedTxnTs then false
  else if isLockedTs e.ts then decide (ownerTs = some (lockedUnmask e.ts))
  else decide (e.ts ≤ readTs)

def Page.setRow (p : Page) (row : Row) (ts : Ts) : Page :=
  ⟨row.sortKey, ts, some row⟩ :: p

def Page.deleteRow (p : Page) (sk : SortKey) (ts : Ts) : Page :=
  ⟨sk, ts, none⟩ :: p

def Page.getRow : Page → SortKey → Ts → Option Ts → ReadResult
  | [], _, _, _ => .notFound
  | e :: rest, sk, readTs, ownerTs =>
    if e.sk = sk ∧ entryVisible e readTs ownerTs = true then
      match e.val with
      | some r => .found r e.ts
      | none => .notFound
    else Page.getRow rest sk readTs ownerTs

def Page.setTs : Page → SortKey → Ts → Page
  | [], _, _ => []
  | e :: rest, sk, newTs =>
    if e.sk = sk ∧ isLockedTs e.ts = true then ⟨e.sk, newTs, e.val⟩ :: rest
    else e :: Page.setTs rest sk newTs

/-- Newest entry for a sort key, irrespective of visibility. -/
def Page.newestEntryFor : Page → SortKey → Option DeltaEntry
  | [], _ => none
  | e :: rest, sk => if e.sk = sk then some e else Page.newestEntryFor rest sk

/-- Modelled from the spec: under the `Inlined` discipline with
`check_intent_locked`, a subtable write reports a conflict exactly when the
newest entry for the sort key is an intent locked by another transaction. -/
def Page.intentConflict (p : Page) (sk : SortKey) (ownerReadTs : Ts) : Bool :=
  match p.newestEntryFor sk with
  | some e => isLockedTs e.ts && decide (e.ts ≠ kAbortedTxnTs) &&
      decide (lockedUnmask e.ts ≠ ownerReadTs)
  | none => false

/-! ## Subtable map

The subtable collaborator is external to the sources; it is
Modelled from the spec: `OpenSubTable` opens (or creates) the page keyed by
the subtable name, and `SetRow`/`DeleteRow`/`GetRow`/`SetTs` act on that
page.  The collection of subtables is an association list from subtable key
to page.
-/

abbrev DB := List (SubKey × Page)

def DB.getPage : DB → SubKey → Page
  | [], _ => []
  | (k, p) :: rest, key => if k = key then p else DB.getPage rest key

def DB.modifyPage : DB → SubKey → (Page → Page) → DB
  | [], key, f => [(key, f [])]
  | (k, p) :: rest, key, f =>
    if k = key then (k, f p) :: rest else (k, p) :: DB.modifyPage rest key f

def DB.setTs (db : DB) (key : SubKey) (sk : SortKey) (ts : Ts) : DB :=
  db.modifyPage key (fun p => p.setTs sk ts)

/-! ## OCC transaction context (`txn_context_occ.cpp`)

The write set maps `(subtable_key, sort_key)` to `some row` (buffered
write) or `none` (buffered delete); the read set maps it to `some ts`
(observed version) or `none` (observed not-found).  Both are association
lists updated in place with overwrite semantics, as in the source.  Lock
acquisition and release act on lock tables that are external to the claims
and never touch pages, so they are not modelled; under the `Inlined`
discipline they are no-ops in the source as well.
-/

inductive TxnType where
  | readOnlyTxn : TxnType
  | readWriteTxn : TxnType
deriving DecidableEq, Repr

inductive LockManagerType where
  | kCentralized : LockManagerType
  | kDecentralized : LockManagerType
  | kInlined : LockManagerType
deriving DecidableEq, Repr

inductive TxnStatus where
  | commit : TxnStatus
  | abort : TxnStatus
deriving DecidableEq, Repr

def assocUpdate {α β : Type} [DecidableEq α] : List (α × β) → α → β → List (α × β)
  | [], key, v => [(key, v)]
  | (k, v') :: rest, key, v =>
    if k = key then (key, v) :: rest else (k, v') :: assocUpdate rest key v

def assocFind {α β : Type} [DecidableEq α] : List (α × β) → α → Option β
  | [], _ => none
  | (k, v) :: rest, key => if k = key then some v else assocFind rest key

abbrev WriteEntry := (SubKey × SortKey) × Option Row

structure TxnContextOCC where
  txnType : TxnType
  lockManagerType : LockManagerType
  readTs : Ts
  writeSet : List WriteEntry
  readSet : List ((SubKey × SortKey) × Option Ts)
deriving DecidableEq, Repr

/-- `TxnContextOCC::SetRow`: buffer the row in the write set under
`(sub_table_key, row.GetSortKeys())`, overwriting any earlier write. -/
def TxnContextOCC.setRow (ctx : TxnContextOCC) (key : SubKey) (row : Row) :
    TxnContextOCC :=
  { ctx with writeSet := assocUpdate ctx.writeSet (key, row.sortKey) (some row) }

/-- `TxnContextOCC::DeleteRow`: buffer a delete in the write set. -/
def TxnContextOCC.deleteRow (ctx : TxnContextOCC) (key : SubKey) (sk : SortKey) :
    TxnContextOCC :=
  { ctx with writeSet := assocUpdate ctx.writeSet (key, sk) none }

/-- `TxnContextOCC::GetRow`: read-only transactions read the subtable
directly; read-write transactions first consult the write set (a buffered
row is returned, a buffered delete yields not-found, either without
reading the subtable), and otherwise read the subtable at `read_ts` and
record the observed timestamp (or not-found) in the read set. -/
def TxnContextOCC.getRow (ctx : TxnContextOCC) (db : DB) (key : SubKey)
    (sk : SortKey) : Option Row × TxnContextOCC :=
  if ctx.txnType = .readOnlyTxn then
    match (db.getPage key).getRow sk ctx.readTs none with
    | .found r _ => (some r, ctx)
    | .notFound => (none, ctx)
  else
    match assocFind ctx.writeSet (key, sk) with
    | some (some row) => (some row, ctx)
    | some none => (none, ctx)
    | none =>
      match (db.getPage key).getRow sk ctx.readTs none with
      | .found r t =>
        (some r, { ctx with readSet := assocUpdate ctx.readSet (key, sk) (some t) })
      | .notFound =>
        (none, { ctx with readSet := assocUpdate ctx.readSet (key, sk) none })

/-- The `check_intent_locked` option set by `CommitOrAbort`: conflict
detection happens only under the `Inlined` lock discipline. -/
def TxnContextOCC.checkIntentLocked (ctx : TxnContextOCC) : Bool :=
  decide (ctx.lockManagerType = .kInlined)

/-- Whether the subtable accepts one intent write (`SetRow`/`DeleteRow` at
`MarkLocked(read_ts)`): it refuses exactly when conflict detection is on
and the page holds a foreign intent for the sort key. -/
def intentStatusOk (db : DB) (chk : Bool) (readTs : Ts) (kv : WriteEntry) : Bool :=
  let sk := match kv.2 with
    | some row => row.sortKey
    | none => kv.1.2
  !(chk && (db.getPage kv.1.1).intentConflict sk readTs)

/-- Install one intent: `SetRow(row, MarkLocked(read_ts))` or
`DeleteRow(sort_key, MarkLocked(read_ts))` on the subtable. -/
def applyIntent (db : DB) (readTs : Ts) (kv : WriteEntry) : DB :=
  match kv with
  | ((key, _), some row) => db.modifyPage key (fun p => p.setRow row (markLocked readTs))
  | ((key, sk), none) => db.modifyPage key (fun p => p.deleteRow sk (markLocked readTs))

def applyIntents (readTs : Ts) (entries : List WriteEntry) (db : DB) : DB :=
  entries.foldl (fun d kv => applyIntent d readTs kv) db

/-- `TxnContextOCC::WriteIntents_`: iterate the write set installing
intents, keeping an undo list of already-written entries; on the first
refused intent, stamp every undo-list entry with `kAbortedTxnTs` (in
undo-list order) and fail. -/
def writeIntentsGo (readTs : Ts) (chk : Bool) :
    List WriteEntry → DB → List (SubKey × SortKey) → Bool × DB
  | [], db, _ => (true, db)
  | kv :: rest, db, undo =>
    if intentStatusOk db chk readTs kv then
      writeIntentsGo readTs chk rest (applyIntent db readTs kv) (undo ++ [kv.1])
    else
      (false, undo.foldl (fun d u => DB.setTs d u.1 u.2 kAbortedTxnTs) db)

def TxnContextOCC.writeIntents (ctx : TxnContextOCC) (chk : Bool) (db : DB) :
    Bool × DB :=
  writeIntentsGo ctx.readTs chk ctx.writeSet db []

/-- One read-set entry re-checked during validation: re-read the subtable
at `commit_ts` with `opts.owner_ts = read_ts`; an observed version must
still be the visible one with the same timestamp, an observed not-found
must still be not-found. -/
def readEntryPasses (db : DB) (commitTs ownerTs : Ts)
    (kv : (SubKey × SortKey) × Option Ts) : Bool :=
  match (db.getPage kv.1.1).getRow kv.1.2 commitTs (some ownerTs) with
  | .found _ t => decide (kv.2 = some t)
  | .notFound => decide (kv.2 = none)

/-- `TxnContextOCC::ValidateRead_`. -/
def TxnContextOCC.validateRead (ctx : TxnContextOCC) (db : DB) (commitTs : Ts) :
    Bool :=
  ctx.readSet.all (readEntryPasses db commitTs ctx.readTs)

/-- `TxnContextOCC::CommitIntents_`: stamp every write-set intent with the
commit timestamp. -/
def TxnContextOCC.commitIntents (ctx : TxnContextOCC) (db : DB) (commitTs : Ts) :
    DB :=
  ctx.writeSet.foldl (fun d kv => DB.setTs d kv.1.1 kv.1.2 commitTs) db

/-- `TxnContextOCC::AbortIntents_`: stamp every write-set intent with
`kAbortedTxnTs`. -/
def TxnContextOCC.abortIntents (ctx : TxnContextOCC) (db : DB) : DB :=
  ctx.writeSet.foldl (fun d kv => DB.setTs d kv.1.1 kv.1.2 kAbortedTxnTs) db

/-- `TxnContextOCC::CommitOrAbort`: read-only transactions commit
immediately; otherwise write the intents (conflict detection only under
`Inlined`), acquire `commit_ts` from the transaction manager (passed in as
`commitTs`), validate the read set, and stamp the intents with `commit_ts`
on success or `kAbortedTxnTs` on validation failure. -/
def TxnContextOCC.commitOrAbort (ctx : TxnContextOCC) (db : DB) (commitTs : Ts) :
    TxnStatus × DB :=
  if ctx.txnType = .readOnlyTxn then (.commit, db)
  else
    match ctx.writeIntents ctx.checkIntentLocked db with
    | (false, db') => (.abort, db')
    | (true, db') =>
      if ctx.validateRead db' commitTs then (.commit, ctx.commitIntents db' commitTs)
      else (.abort, ctx.abortIntents db')

/-- Specification-side description of "every intent in the list is stamped
with `ts`, in order", written by plain recursion (the source uses an
iterator loop). -/
def stampIntents (ts : Ts) : List (SubKey × SortKey) → DB → DB
  | [], db => db
  | k :: rest, db => stampIntents ts rest (DB.setTs db k.1 k.2 ts)

/-- Specification-side predicate: every prefix intent of the list is
accepted when the intents are installed sequentially. -/
def intentsPrefixOk (readTs : Ts) (chk : Bool) : List WriteEntry → DB → Bool
  | [], _ => true
  | kv :: rest, db =>
    intentStatusOk db chk readTs kv && intentsPrefixOk readTs chk rest (applyIntent db readTs kv)

/-! ## `PosixLogStore::AppendLogRecord` and the durability hooks

`AppendLogRecord` in `posix_log_store.cpp` is a stub: it returns `Ok`
without writing anything into the result container.  `WriteLogHelper_`
in `txn_context_occ.cpp` then reads `result[0]`.  The embedding returns
the status and the result container the source produces.
-/

inductive LogStatus where
  | ok : LogStatus
deriving DecidableEq, Repr

structure LsnRange where
  startLsn : Nat
  endLsn : Nat
deriving DecidableEq, Repr

/-- `PosixLogStore::AppendLogRecord(log_records, result)`: the body
returns `Status::Ok()` and never appends to `*result`. -/
def appendLogRecord (logRecords : List String) : LogStatus × List LsnRange :=
  (.ok, [])

/-- The element access `result[0]` performed by `WriteLogHelper_` after
`AppendLogRecord` returns, embedded as a checked lookup. -/
def writeLogHelperAccess (logRecords : List String) : Option LsnRange :=
  (appendLogRecord logRecords).2[0]?

/-! # Theorems -/

namespace LogSegment

/-! Arithmetic normal forms of the control-word accessors. -/

theorem getLsn_eq (w : Nat) : getLsn w = w % 2 ^ 48 := by
  have h : kLsnMaskbit = 2 ^ 48 - 1 := by decide
  rw [getLsn, h, Nat.and_pow_two_sub_one_eq_mod]

theorem getWriterNum_eq (w : Nat) : getWriterNum w = w / 2 ^ 48 % 2 ^ 15 := by
  have h : kWriterNumMaskbit = 2 ^ 15 - 1 := by decide
  rw [getWriterNum, h, Nat.and_pow_two_sub_one_eq_mod, kWriterNumOffset,
    Nat.shiftRight_eq_div_pow]

theorem isSealed_eq (w : Nat) : isSealed w = decide (w / 2 ^ 63 % 2 = 1) := by
  have h : (w >>> kIsSealedOffset) &&& kIsSealedMaskbit = w / 2 ^ 63 % 2 := by
    show (w >>> 63) &&& 1 = w / 2 ^ 63 % 2
    rw [Nat.and_one_is_mod, Nat.shiftRight_eq_div_pow]
  rw [isSealed, h]
  rcases Nat.mod_two_eq_zero_or_one (w / 2 ^ 63) with h0 | h0 <;> rw [h0] <;> decide

theorem markSealed_eq {w : Nat} (h : w < 2 ^ 64) :
    markSealed w = if w < 2 ^ 63 then w + 2 ^ 63 else w := by
  have hbit : (1 : Nat) <<< 63 = 2 ^ 63 := by decide
  rw [markSealed, kIsSealedOffset, hbit]
  by_cases hlt : w < 2 ^ 63
  · have := Nat.mul_add_lt_is_or hlt 1
    simp only [Nat.mul_one] at this
    rw [Nat.or_comm, ← this, if_pos hlt]
    omega
  · have hr : w - 2 ^ 63 < 2 ^ 63 := by omega
    have hsplit : w = 2 ^ 63 * 1 + (w - 2 ^ 63) := by omega
    have hor := Nat.mul_add_lt_is_or hr 1
    rw [if_neg hlt]
    conv_lhs => rw [hsplit, hor]
    rw [Nat.or_assoc, Nat.or_comm (w - 2 ^ 63), ← Nat.or_assoc]
    have hself : 2 ^ 63 * 1 ||| 2 ^ 63 = 2 ^ 63 * 1 := by decide
    rw [hself, ← hor, ← hsplit]

theorem getLsn_markSealed (w : Nat) : getLsn (markSealed w) = getLsn w := by
  rw [getLsn, getLsn, markSealed, Nat.and_distrib_right]
  have h : (1 <<< kIsSealedOffset) &&& kLsnMaskbit = 0 := by decide
  rw [h, Nat.or_zero]

theorem getLsn_onWriterExit (w : Nat) : getLsn (onWriterExit w).1 = getLsn w := by
  show getLsn (decrWriterNum w) = getLsn w
  rw [getLsn_eq, getLsn_eq, decrWriterNum, Nat.one_shiftLeft, kWriterNumOffset]
  omega

theorem getLsn_trySeal (w : Nat) : getLsn (trySealLogSegment w).2 = getLsn w := by
  rw [trySealLogSegment]
  by_cases h : isSealed w = true
  · rw [if_pos h]
  · rw [if_neg h]
    exact getLsn_markSealed w

/-- C9.  The control-word accessors realize the packed layout
`[IsSealed:1 | WriterCount:15 | NextLsnOffset:48]`: `GetLsn_` is the value
mod `2^48`, `GetWriterNum_` is the value shifted by 48 mod `2^15`,
`IsSealed_` is bit 63; and, absent field overflow, `IncrWriterNum_`,
`DecrWriterNum_` and `BumpLsn_` change only their own field by the stated
amount while `MarkSealed_` only sets bit 63. -/
theorem control_word_accessor_layout (w length : Nat) (h64 : w < 2 ^ 64) :
    getLsn w = w % 2 ^ 48 ∧
    getWriterNum w = (w >>> 48) % 2 ^ 15 ∧
    isSealed w = w.testBit 63 ∧
    (getWriterNum w + 1 ≤ kMaximumWriterNum →
      getWriterNum (incrWriterNum w) = getWriterNum w + 1 ∧
      getLsn (incrWriterNum w) = getLsn w ∧
      isSealed (incrWriterNum w) = isSealed w) ∧
    (0 < getWriterNum w →
      getWriterNum (decrWriterNum w) = getWriterNum w - 1 ∧
      getLsn (decrWriterNum w) = getLsn w ∧
      isSealed (decrWriterNum w) = isSealed w) ∧
    (getLsn w + length < 2 ^ 48 →
      getLsn (bumpLsn w length) = getLsn w + length ∧
      getWriterNum (bumpLsn w length) = getWriterNum w ∧
      isSealed (bumpLsn w length) = isSealed w) ∧
    (isSealed (markSealed w) = true ∧
      getLsn (markSealed w) = getLsn w ∧
      getWriterNum (markSealed w) = getWriterNum w) := by
  have hmax : kMaximumWriterNum = 32767 := by decide
  have hshift : (1 : Nat) <<< kWriterNumOffset = 2 ^ 48 := by decide
  refine ⟨getLsn_eq w, ?_, ?_, ?_, ?_, ?_, ?_, getLsn_markSealed w, ?_⟩
  · rw [getWriterNum_eq, Nat.shiftRight_eq_div_pow]
  · rw [isSealed_eq, Nat.testBit_to_div_mod]
  · intro h
    rw [getWriterNum_eq, hmax] at h
    simp only [incrWriterNum, hshift, getWriterNum_eq, getLsn_eq, isSealed_eq,
      decide_eq_decide]
    refine ⟨by omega, by omega, by omega⟩
  · intro h
    rw [getWriterNum_eq] at h
    simp only [decrWriterNum, hshift, getWriterNum_eq, getLsn_eq, isSealed_eq,
      decide_eq_decide]
    refine ⟨by omega, by omega, by omega⟩
  · intro h
    rw [getLsn_eq] at h
    simp only [bumpLsn, getWriterNum_eq, getLsn_eq, isSealed_eq, decide_eq_decide]
    refine ⟨by omega, by omega, by omega⟩
  · rw [isSealed_eq, markSealed_eq h64]
    simp only [decide_eq_true_eq]
    split <;> omega
  · rw [getWriterNum_eq, getWriterNum_eq, markSealed_eq h64]
    split <;> omega

/-- C9 witness: the field updates evaluated on the concrete control word
`2^48 + 7` (one writer, offset 7, unsealed) with `length = 3`. -/
theorem control_word_accessor_layout_witness :
    getWriterNum (incrWriterNum (2 ^ 48 + 7)) = getWriterNum (2 ^ 48 + 7) + 1 ∧
    getWriterNum (decrWriterNum (2 ^ 48 + 7)) = getWriterNum (2 ^ 48 + 7) - 1 ∧
    getLsn (bumpLsn (2 ^ 48 + 7) 3) = getLsn (2 ^ 48 + 7) + 3 ∧
    isSealed (markSealed (2 ^ 48 + 7)) = true := by
  have h := control_word_accessor_layout (2 ^ 48 + 7) 3 (by decide)
  exact ⟨(h.2.2.2.1 (by decide)).1, (h.2.2.2.2.1 (by decide)).1,
    (h.2.2.2.2.2.1 (by decide)).1, h.2.2.2.2.2.2.1⟩

/-- C3.  Evaluation of `OnWriterExit` at sealed control words: with one
writer remaining before the call (word `2^63 + 2^48`) the decrement leaves
`WriterCount = 0` yet no transition to `Io` is scheduled, because
`bool is_last_writer = GetWriterNum_(new_control_bits)` converts the count
to `true` exactly when it is nonzero; with two writers (word
`2^63 + 2*2^48`) the transition IS scheduled although a writer remains.
This contradicts the documented protocol ("when writer num == 0 and log
segment is sealed, schedule an io task"). -/
theorem onWriterExit_io_transition_eval :
    isSealed (2 ^ 63 + 2 ^ 48) = true ∧
    getWriterNum (2 ^ 63 + 2 ^ 48) = 1 ∧
    onWriterExit (2 ^ 63 + 2 ^ 48) = (2 ^ 63, false) ∧
    getWriterNum (2 ^ 63) = 0 ∧
    isSealed (2 ^ 63 + 2 * 2 ^ 48) = true ∧
    onWriterExit (2 ^ 63 + 2 * 2 ^ 48) = (2 ^ 63 + 2 ^ 48, true) ∧
    getWriterNum (2 ^ 63 + 2 ^ 48) ≠ 0 := by
  decide

/-- C4 counterexample: from a fresh segment of size 100, seal it, then
`AcquireControlGuard(10)`: the acquire path never examines the seal bit, so
the CAS succeeds and `NextLsnOffset` moves from 0 to 10 on a sealed
segment. -/
theorem sealed_lsn_changes_counterexample :
    isSealed (runWord 100 0 [.trySeal]) = true ∧
    getLsn (runWord 100 0 [.trySeal]) = 0 ∧
    getLsn (runWord 100 0 [.trySeal, .acquire 10]) = 10 := by
  decide

theorem runWord_lsn_stable_aux (size : Nat) (ops : List LogOp) :
    ∀ w : Nat, (∀ op ∈ ops, op = LogOp.writerExit ∨ op = LogOp.trySeal) →
      getLsn (runWord size w ops) = getLsn w := by
  induction ops with
  | nil => intro w _; rfl
  | cons op rest ih =>
    intro w hops
    have hstep : getLsn (stepWord size w op) = getLsn w := by
      rcases hops op (List.mem_cons_self op rest) with h | h <;> rw [h]
      · exact getLsn_onWriterExit w
      · exact getLsn_trySeal w
    have : runWord size w (op :: rest) = runWord size (stepWord size w op) rest := rfl
    rw [this, ih (stepWord size w op) (fun o ho => hops o (List.mem_cons_of_mem op ho)),
      hstep]

/-- C4 amended.  Once the `IsSealed` bit is set, `NextLsnOffset` is never
changed by any subsequent `OnWriterExit` or `TrySealLogSegment`; only a
subsequent successful `AcquireControlGuard` can still advance it, because
the acquire path does not examine the seal bit. -/
theorem sealed_lsn_stable_without_acquire (size w : Nat) (ops : List LogOp)
    (hsealed : isSealed w = true)
    (hops : ∀ op ∈ ops, op = LogOp.writerExit ∨ op = LogOp.trySeal) :
    getLsn (runWord size w ops) = getLsn w :=
  runWord_lsn_stable_aux size ops w hops

/-- C4 amended witness: a sealed word followed by a writer exit and a
repeated seal keeps its lsn offset. -/
theorem sealed_lsn_stable_without_acquire_witness :
    isSealed (markSealed 6) = true ∧
    getLsn (runWord 100 (markSealed 6) [.writerExit, .trySeal]) = getLsn (markSealed 6) := by
  refine ⟨by decide, ?_⟩
  exact sealed_lsn_stable_without_acquire 100 (markSealed 6)
    [.writerExit, .trySeal] (by decide) (by decide)

/-- C6.  `AcquireControlGuard(length)` refuses with "must seal" exactly
when `NextLsnOffset + length` exceeds the segment size (so the boundary
case `NextLsnOffset + length = size` is not a seal, making a segment size
equal to one record's length valid), refuses with "must wait" exactly
when the record fits but `WriterCount + 1` exceeds `2^15 - 1`, and
otherwise installs the control word with `WriterCount + 1`,
`NextLsnOffset + length` and `IsSealed` unchanged. -/
theorem acquire_control_guard_cases (w length size : Nat) (h64 : w < 2 ^ 64)
    (hsize : size < 2 ^ 48) :
    (acquireControlGuard w length size = .mustSeal ↔ size < getLsn w + length) ∧
    (acquireControlGuard w length size = .mustWait ↔
      (getLsn w + length ≤ size ∧ 2 ^ 15 - 1 < getWriterNum w + 1)) ∧
    (getLsn w + length = size → acquireControlGuard w length size ≠ .mustSeal) ∧
    (getLsn w + length ≤ size → getWriterNum w + 1 ≤ 2 ^ 15 - 1 →
      acquireControlGuard w length size = .acquired (bumpLsn (incrWriterNum w) length) ∧
      getWriterNum (bumpLsn (incrWriterNum w) length) = getWriterNum w + 1 ∧
      getLsn (bumpLsn (incrWriterNum w) length) = getLsn w + length ∧
      isSealed (bumpLsn (incrWriterNum w) length) = isSealed w) := by
  have hmax : kMaximumWriterNum = 2 ^ 15 - 1 := by decide
  have hshift : (1 : Nat) <<< kWriterNumOffset = 2 ^ 48 := by decide
  by_cases h1 : size < getLsn w + length
  · have hres : acquireControlGuard w length size = .mustSeal := by
      rw [acquireControlGuard, if_pos h1]
    refine ⟨⟨fun _ => h1, fun _ => hres⟩, ⟨?_, ?_⟩, ?_, ?_⟩
    · intro h
      rw [hres] at h
      exact AcquireResult.noConfusion h
    · intro h
      exact absurd h1 (Nat.not_lt.mpr h.1)
    · intro heq _
      omega
    · intro hle _
      exact absurd h1 (Nat.not_lt.mpr hle)
  · by_cases h2 : kMaximumWriterNum < getWriterNum w + 1
    · have hres : acquireControlGuard w length size = .mustWait := by
        rw [acquireControlGuard, if_neg h1, if_pos h2]
      have h2' : 2 ^ 15 - 1 < getWriterNum w + 1 := by
        rw [hmax] at h2
        exact h2
      refine ⟨⟨?_, fun h => absurd h h1⟩, ⟨fun _ => ⟨by omega, h2'⟩, fun _ => hres⟩,
        ?_, ?_⟩
      · intro h
        rw [hres] at h
        exact AcquireResult.noConfusion h
      · intro _ hc
        rw [hres] at hc
        exact AcquireResult.noConfusion hc
      · intro _ hw
        exact absurd h2' (Nat.not_lt.mpr hw)
    · have hres : acquireControlGuard w length size =
          .acquired (bumpLsn (incrWriterNum w) length) := by
        rw [acquireControlGuard, if_neg h1, if_neg h2]
      have h2' : ¬(2 ^ 15 - 1 < getWriterNum w + 1) := by
        rw [hmax] at h2
        exact h2
      have h1' : w % 2 ^ 48 + length ≤ size := by
        have hx := Nat.not_lt.mp h1
        rw [getLsn_eq] at hx
        exact hx
      have hw' : w / 2 ^ 48 % 2 ^ 15 + 1 ≤ 2 ^ 15 - 1 := by
        have hx := Nat.not_lt.mp h2'
        rw [getWriterNum_eq] at hx
        exact hx
      have harith : bumpLsn (incrWriterNum w) length = w + 2 ^ 48 + length := by
        rw [bumpLsn, incrWriterNum, hshift]
        omega
      refine ⟨⟨?_, fun h => absurd h h1⟩, ⟨?_, fun h => absurd h.2 h2'⟩, ?_, ?_⟩
      · intro h
        rw [hres] at h
        exact AcquireResult.noConfusion h
      · intro h
        rw [hres] at h
        exact AcquireResult.noConfusion h
      · intro _ hc
        rw [hres] at hc
        exact AcquireResult.noConfusion hc
      · intro _ _
        refine ⟨hres, ?_, ?_, ?_⟩
        · rw [harith, getWriterNum_eq, getWriterNum_eq]
          omega
        · rw [harith, getLsn_eq, getLsn_eq]
          omega
        · rw [harith, isSealed_eq, isSealed_eq, decide_eq_decide]
          omega

/-- C6 witness: on a fresh control word, a record whose length equals the
segment size is admitted and the writer count rises to one. -/
theorem acquire_control_guard_cases_witness :
    acquireControlGuard 0 8 8 = .acquired (bumpLsn (incrWriterNum 0) 8) ∧
    getWriterNum (bumpLsn (incrWriterNum 0) 8) = 1 ∧
    getLsn (bumpLsn (incrWriterNum 0) 8) = 8 ∧
    isSealed (bumpLsn (incrWriterNum 0) 8) = false ∧
    acquireControlGuard 0 8 8 ≠ .mustSeal := by
  have h := acquire_control_guard_cases 0 8 8 (by decide) (by decide)
  refine ⟨(h.2.2.2 (by decide) (by decide)).1, ?_, ?_, ?_, h.2.2.1 (by decide)⟩
  · rw [(h.2.2.2 (by decide) (by decide)).2.1]
    decide
  · rw [(h.2.2.2 (by decide) (by decide)).2.2.1]
    decide
  · rw [(h.2.2.2 (by decide) (by decide)).2.2.2]
    decide

/-- C5 counterexample: a segment ring run in which segment 1 is opened at
`start_lsn = 5`, accumulates 10 bytes, and is then sealed.
`TrySealLogSegment` returns the raw final `NextLsnOffset` 10 — not
`start_lsn + offset = 15` — and `SealAndOpen` opens the next segment at
`start_lsn = 10`, violating
`segment[i+1].start_lsn == segment[i].start_lsn + segment[i].sealed_offset`. -/
theorem seal_lsn_translation_counterexample :
    runWord 4096 0 [.acquire 5, .writerExit] = 5 ∧
    sealAndOpen ⟨.kOpen, 0, 5⟩ ⟨.kFree, 0, 0⟩ =
      some (⟨.kOpen, 0, markSealed 5⟩, ⟨.kOpen, 5, 0⟩) ∧
    runWord 4096 0 [.acquire 10, .writerExit] = 10 ∧
    (trySealLogSegment 10).1 = some 10 ∧
    sealAndOpen ⟨.kOpen, 5, 10⟩ ⟨.kFree, 0, 0⟩ =
      some (⟨.kOpen, 5, markSealed 10⟩, ⟨.kOpen, 10, 0⟩) ∧
    (10 : Nat) ≠ 5 + getLsn 10 := by
  decide

/-- C5 amended.  `TrySealLogSegment` on an unsealed open segment sets the
`IsSealed` bit and returns the segment's final `NextLsnOffset` itself (no
translation by `start_lsn` is performed), and returns `None` if the
segment is already sealed; consequently, when `SealAndOpen` succeeds, the
next segment it opens has `start_lsn` equal to the sealed segment's final
`NextLsnOffset`: `segment[i+1].start_lsn == segment[i].sealed_offset`. -/
theorem try_seal_and_seal_and_open_spec :
    (∀ w : Nat, isSealed w = true → trySealLogSegment w = (none, w)) ∧
    (∀ w : Nat, isSealed w = false →
      trySealLogSegment w = (some (getLsn w), markSealed w)) ∧
    (∀ w : Nat, w < 2 ^ 64 → isSealed (markSealed w) = true) ∧
    (∀ cur next cur2 next2 : Segment,
      sealAndOpen cur next = some (cur2, next2) →
      isSealed cur.control = false ∧
      cur2 = { cur with control := markSealed cur.control } ∧
      next2 = { next with startLsn := getLsn cur.control, state := .kOpen }) := by
  have hseal : ∀ w : Nat, isSealed w = false →
      trySealLogSegment w = (some (getLsn w), markSealed w) := by
    intro w h
    unfold trySealLogSegment
    rw [if_neg (by rw [h]; exact Bool.false_ne_true), getLsn_markSealed]
  refine ⟨?_, hseal, ?_, ?_⟩
  · intro w h
    unfold trySealLogSegment
    rw [if_pos h]
  · intro w h64
    exact (control_word_accessor_layout w 0 h64).2.2.2.2.2.2.1
  · intro cur next cur2 next2 h
    by_cases hs : isSealed cur.control = true
    · have ht : trySealLogSegment cur.control = (none, cur.control) := by
        unfold trySealLogSegment
        rw [if_pos hs]
      unfold sealAndOpen at h
      rw [ht] at h
      exact Option.noConfusion h
    · have hs' : isSealed cur.control = false := Bool.eq_false_iff.mpr hs
      unfold sealAndOpen at h
      rw [hseal cur.control hs'] at h
      simp only [Option.some.injEq, Prod.mk.injEq] at h
      exact ⟨hs', h.1.symm, h.2.symm⟩

/-- C5 amended witness: sealing the reached segment `⟨kOpen, 5, 10⟩` hands
`start_lsn = 10` (its raw sealed offset) to the next segment. -/
theorem try_seal_and_seal_and_open_spec_witness :
    trySealLogSegment 10 = (some (getLsn 10), markSealed 10) ∧
    isSealed (markSealed 10) = true ∧
    trySealLogSegment (markSealed 10) = (none, markSealed 10) ∧
    (isSealed (Segment.mk .kOpen 5 10).control = false ∧
      (⟨.kOpen, 5, markSealed 10⟩ : Segment) =
        { (⟨.kOpen, 5, 10⟩ : Segment) with control := markSealed (Segment.mk .kOpen 5 10).control } ∧
      (⟨.kOpen, 10, 0⟩ : Segment) =
        { (⟨.kFree, 0, 0⟩ : Segment) with
            startLsn := getLsn (Segment.mk .kOpen 5 10).control, state := .kOpen }) := by
  refine ⟨try_seal_and_seal_and_open_spec.2.1 10 (by decide),
    try_seal_and_seal_and_open_spec.2.2.1 10 (by decide),
    try_seal_and_seal_and_open_spec.1 (markSealed 10) (by decide),
    try_seal_and_seal_and_open_spec.2.2.2 ⟨.kOpen, 5, 10⟩ ⟨.kFree, 0, 0⟩
      ⟨.kOpen, 5, markSealed 10⟩ ⟨.kOpen, 10, 0⟩ (by decide)⟩

end LogSegment

/-! ## Timestamp flag lemmas -/

theorem isLockedTs_of_lt {ts : Ts} (h : ts < kLockedFlag) : isLockedTs ts = false := by
  have hzero : ts &&& kLockedFlag = 0 := by
    rw [kLockedFlag] at h ⊢
    rw [Nat.and_two_pow, Nat.testBit_lt_two_pow h]
    rfl
  rw [isLockedTs, hzero]
  rfl

theorem kAborted_lt_kLocked : kAbortedTxnTs < kLockedFlag := by decide

/-! ## C10: the log-append result container -/

/-- C10.  `PosixLogStore::AppendLogRecord` is a stub that returns `Ok`
without writing anything into the result container, so the container that
`WriteLogHelper_` indexes at position 0 on behalf of `Begin_` / `Commit_` /
`Abort_` is empty and the access `result[0]` is out of bounds, refuting
the claim that it is non-empty. -/
theorem appendLogRecord_result_empty (logRecords : List String) :
    (appendLogRecord logRecords).2 = [] ∧
    (appendLogRecord logRecords).2.length = 0 ∧
    writeLogHelperAccess logRecords = none :=
  ⟨rfl, rfl, rfl⟩

/-! ## C8: round trips on the versioned page -/

/-- C8.  On a versioned page, `SetRow(row, ts)` followed by
`GetRow(sort_key(row), read_ts)` with `read_ts ≥ ts` returns the row with
exactly the written column values (at version `ts`); and `SetRow(row, ts)`
followed by `DeleteRow(sort_key(row), ts2)` with `ts2 > ts` followed by
`GetRow(sort_key(row), read_ts2)` with `read_ts2 ≥ ts2` returns not-found.
Timestamps are ordinary committed timestamps (below the reserved
`kAbortedTxnTs` marker, hence unlocked). -/
theorem page_set_get_round_trip (p : Page) (row : Row) (ts ts2 rts rts2 : Ts)
    (h1 : ts ≤ rts) (h2 : ts < kAbortedTxnTs) (h3 : ts < ts2) (h4 : ts2 ≤ rts2)
    (h5 : ts2 < kAbortedTxnTs) :
    (p.setRow row ts).getRow row.sortKey rts none = .found row ts ∧
    ((p.setRow row ts).deleteRow row.sortKey ts2).getRow row.sortKey rts2 none =
      .notFound := by
  have hl1 : isLockedTs ts = false :=
    isLockedTs_of_lt (Nat.lt_trans h2 kAborted_lt_kLocked)
  have hl2 : isLockedTs ts2 = false :=
    isLockedTs_of_lt (Nat.lt_trans h5 kAborted_lt_kLocked)
  constructor
  · simp [Page.setRow, Page.getRow, entryVisible, hl1, Nat.ne_of_lt h2, h1]
  · simp [Page.setRow, Page.deleteRow, Page.getRow, entryVisible, hl2,
      Nat.ne_of_lt h5, h4]

/-- C8 witness: the concrete history of `BasicTest` — write `"hello"` at
`ts 0`, read at `ts 1`; then delete at `ts 2` and read at `ts 2`. -/
theorem page_set_get_round_trip_witness :
    (Page.setRow [] ⟨"p", [.vStr "hello"]⟩ 0).getRow "p" 1 none =
      .found ⟨"p", [.vStr "hello"]⟩ 0 ∧
    ((Page.setRow [] ⟨"p", [.vStr "hello"]⟩ 0).deleteRow "p" 2).getRow "p" 2 none =
      .notFound :=
  page_set_get_round_trip [] ⟨"p", [.vStr "hello"]⟩ 0 2 1 2 (by decide) (by decide)
    (by decide) (by decide) (by decide)

/-! ## C7: write-set semantics inside one transaction -/

theorem assocFind_assocUpdate_self {α β : Type} [DecidableEq α]
    (l : List (α × β)) (k : α) (v : β) :
    assocFind (assocUpdate l k v) k = some v := by
  induction l with
  | nil => simp [assocUpdate, assocFind]
  | cons kv rest ih =>
    by_cases h : kv.1 = k
    · simp [assocUpdate, assocFind, h]
    · simpa [assocUpdate, assocFind, h] using ih

/-- C7.  Within one read-write transaction, `GetRow` first consults the
write set: a buffered row is returned and a buffered delete yields
not-found, in both cases without reading the subtable (the outcome and the
context are independent of the subtable contents); and a later `SetRow` or
`DeleteRow` on the same `(subtable_key, sort_key)` replaces the earlier
write-set entry, so the last write in program order is the one a
subsequent `GetRow` observes. -/
theorem txn_read_your_writes (ctx : TxnContextOCC) (db db2 : DB) (key : SubKey)
    (sk : SortKey) (row row2 : Row) (hrw : ctx.txnType = .readWriteTxn)
    (hsk : row2.sortKey = row.sortKey) :
    ((ctx.setRow key row).getRow db key row.sortKey = (some row, ctx.setRow key row)) ∧
    ((ctx.setRow key row).getRow db key row.sortKey =
      (ctx.setRow key row).getRow db2 key row.sortKey) ∧
    ((ctx.deleteRow key sk).getRow db key sk = (none, ctx.deleteRow key sk)) ∧
    ((ctx.deleteRow key sk).getRow db key sk =
      (ctx.deleteRow key sk).getRow db2 key sk) ∧
    ((((ctx.setRow key row).setRow key row2).getRow db key row.sortKey).1 =
      some row2) ∧
    ((((ctx.setRow key row).deleteRow key row.sortKey).getRow db key
      row.sortKey).1 = none) ∧
    ((((ctx.deleteRow key row.sortKey).setRow key row).getRow db key
      row.sortKey).1 = some row) := by
  have hget : ∀ d : DB,
      (ctx.setRow key row).getRow d key row.sortKey = (some row, ctx.setRow key row) := by
    intro d
    simp [TxnContextOCC.getRow, TxnContextOCC.setRow, hrw, assocFind_assocUpdate_self]
  have hdel : ∀ d : DB,
      (ctx.deleteRow key sk).getRow d key sk = (none, ctx.deleteRow key sk) := by
    intro d
    simp [TxnContextOCC.getRow, TxnContextOCC.deleteRow, hrw, assocFind_assocUpdate_self]
  refine ⟨hget db, (hget db).trans (hget db2).symm, hdel db,
    (hdel db).trans (hdel db2).symm, ?_, ?_, ?_⟩
  · simp [TxnContextOCC.getRow, TxnContextOCC.setRow, hrw, hsk,
      assocFind_assocUpdate_self]
  · simp [TxnContextOCC.getRow, TxnContextOCC.setRow, TxnContextOCC.deleteRow,
      hrw, assocFind_assocUpdate_self]
  · simp [TxnContextOCC.getRow, TxnContextOCC.setRow, TxnContextOCC.deleteRow,
      hrw, assocFind_assocUpdate_self]

/-- C7 witness at a concrete read-write context, two rows sharing a sort
key and an arbitrary concrete subtable state. -/
theorem txn_read_your_writes_witness :
    ((TxnContextOCC.mk .readWriteTxn .kCentralized 1 [] []).setRow "t"
        ⟨"a", [.vInt 1]⟩).getRow [] "t" "a" =
      (some ⟨"a", [.vInt 1]⟩,
        (TxnContextOCC.mk .readWriteTxn .kCentralized 1 [] []).setRow "t"
          ⟨"a", [.vInt 1]⟩) ∧
    ((((TxnContextOCC.mk .readWriteTxn .kCentralized 1 [] []).setRow "t"
        ⟨"a", [.vInt 1]⟩).setRow "t" ⟨"a", [.vInt 2]⟩).getRow [] "t" "a").1 =
      some ⟨"a", [.vInt 2]⟩ := by
  have h := txn_read_your_writes (TxnContextOCC.mk .readWriteTxn .kCentralized 1 [] [])
    [] [("t", [])] "t" "a" ⟨"a", [.vInt 1]⟩ ⟨"a", [.vInt 2]⟩ rfl rfl
  exact ⟨h.1, h.2.2.2.2.1⟩

/-! ## C1: read validation and intent stamping at commit -/

theorem stampIntents_eq_foldl (ts : Ts) (keys : List (SubKey × SortKey)) :
    ∀ db : DB, keys.foldl (fun d u => DB.setTs d u.1 u.2 ts) db = stampIntents ts keys db := by
  induction keys with
  | nil => intro db; rfl
  | cons k rest ih =>
    intro db
    rw [List.foldl_cons, stampIntents, ih]

theorem commitIntents_eq_stamp (ctx : TxnContextOCC) (db : DB) (commitTs : Ts) :
    ctx.commitIntents db commitTs =
      stampIntents commitTs (ctx.writeSet.map Prod.fst) db := by
  rw [TxnContextOCC.commitIntents, ← stampIntents_eq_foldl, List.foldl_map]

theorem abortIntents_eq_stamp (ctx : TxnContextOCC) (db : DB) :
    ctx.abortIntents db = stampIntents kAbortedTxnTs (ctx.writeSet.map Prod.fst) db := by
  rw [TxnContextOCC.abortIntents, ← stampIntents_eq_foldl, List.foldl_map]

theorem readEntryPasses_iff (db : DB) (commitTs ownerTs : Ts)
    (kv : (SubKey × SortKey) × Option Ts) :
    readEntryPasses db commitTs ownerTs kv = true ↔
      ((∃ r t, (db.getPage kv.1.1).getRow kv.1.2 commitTs (some ownerTs) = .found r t ∧
          kv.2 = some t) ∨
        ((db.getPage kv.1.1).getRow kv.1.2 commitTs (some ownerTs) = .notFound ∧
          kv.2 = none)) := by
  unfold readEntryPasses
  cases hres : (db.getPage kv.1.1).getRow kv.1.2 commitTs (some ownerTs) with
  | found r t =>
    constructor
    · intro h
      exact Or.inl ⟨r, t, rfl, of_decide_eq_true h⟩
    · rintro (⟨r', t', heq, hv⟩ | ⟨heq, _⟩)
      · cases heq
        exact decide_eq_true hv
      · exact ReadResult.noConfusion heq
  | notFound =>
    constructor
    · intro h
      exact Or.inr ⟨rfl, of_decide_eq_true h⟩
    · rintro (⟨r', t', heq, _⟩ | ⟨_, hv⟩)
      · exact ReadResult.noConfusion heq
      · exact decide_eq_true hv

/-- C1.  For a read-write transaction whose commit reaches the validation
step (intent writing succeeded, producing `db'`), validation passes exactly
when every read-set entry, re-read from the subtable at `commit_ts` with
`owner_ts = read_ts`, agrees: an entry `some ts` requires the visible
version to carry exactly `ts`, an entry `none` requires not-found.  If all
entries pass, every write-set intent is stamped with `commit_ts` and
`Commit` is returned; if any entry fails, every write-set intent is stamped
with `kAbortedTxnTs` and `Abort` is returned. -/
theorem occ_commit_validation (ctx : TxnContextOCC) (db db' : DB) (commitTs : Ts)
    (hrw : ctx.txnType = .readWriteTxn)
    (hwi : ctx.writeIntents ctx.checkIntentLocked db = (true, db')) :
    (ctx.validateRead db' commitTs = true ↔
      ∀ kv ∈ ctx.readSet,
        ((∃ r t, (db'.getPage kv.1.1).getRow kv.1.2 commitTs (some ctx.readTs) =
            .found r t ∧ kv.2 = some t) ∨
          ((db'.getPage kv.1.1).getRow kv.1.2 commitTs (some ctx.readTs) =
            .notFound ∧ kv.2 = none))) ∧
    (ctx.validateRead db' commitTs = true →
      ctx.commitOrAbort db commitTs =
        (.commit, stampIntents commitTs (ctx.writeSet.map Prod.fst) db')) ∧
    (ctx.validateRead db' commitTs = false →
      ctx.commitOrAbort db commitTs =
        (.abort, stampIntents kAbortedTxnTs (ctx.writeSet.map Prod.fst) db')) := by
  have hne : ¬(ctx.txnType = TxnType.readOnlyTxn) := by
    rw [hrw]
    exact fun hc => TxnType.noConfusion hc
  refine ⟨?_, ?_, ?_⟩
  · rw [TxnContextOCC.validateRead, List.all_eq_true]
    constructor
    · intro h kv hkv
      exact (readEntryPasses_iff db' commitTs ctx.readTs kv).mp (h kv hkv)
    · intro h kv hkv
      exact (readEntryPasses_iff db' commitTs ctx.readTs kv).mpr (h kv hkv)
  · intro hval
    unfold TxnContextOCC.commitOrAbort
    rw [if_neg hne, hwi]
    show (if ctx.validateRead db' commitTs = true then
        (TxnStatus.commit, ctx.commitIntents db' commitTs)
      else (TxnStatus.abort, ctx.abortIntents db')) = _
    rw [if_pos hval, commitIntents_eq_stamp]
  · intro hval
    unfold TxnContextOCC.commitOrAbort
    rw [if_neg hne, hwi]
    show (if ctx.validateRead db' commitTs = true then
        (TxnStatus.commit, ctx.commitIntents db' commitTs)
      else (TxnStatus.abort, ctx.abortIntents db')) = _
    rw [if_neg (by rw [hval]; exact Bool.false_ne_true), abortIntents_eq_stamp]

/-- C1 witness: a transaction that buffered one write and read nothing
commits, stamping its single intent with the commit timestamp. -/
theorem occ_commit_validation_witness :
    (TxnContextOCC.mk .readWriteTxn .kCentralized 1
        [(("t", "a"), some ⟨"a", [.vInt 7]⟩)] []).writeIntents
      (TxnContextOCC.mk .readWriteTxn .kCentralized 1
        [(("t", "a"), some ⟨"a", [.vInt 7]⟩)] []).checkIntentLocked [] =
      (true, [("t", [⟨"a", markLocked 1, some ⟨"a", [.vInt 7]⟩⟩])]) ∧
    (TxnContextOCC.mk .readWriteTxn .kCentralized 1
        [(("t", "a"), some ⟨"a", [.vInt 7]⟩)] []).commitOrAbort [] 5 =
      (.commit, stampIntents 5 [("t", "a")]
        [("t", [⟨"a", markLocked 1, some ⟨"a", [.vInt 7]⟩⟩])]) := by
  have h := occ_commit_validation
    (TxnContextOCC.mk .readWriteTxn .kCentralized 1
      [(("t", "a"), some ⟨"a", [.vInt 7]⟩)] [])
    [] [("t", [⟨"a", markLocked 1, some ⟨"a", [.vInt 7]⟩⟩])] 5 rfl (by decide)
  exact ⟨by decide, h.2.1 (by decide)⟩

/-! ## C2: conflicting intent during commit -/

theorem intentStatusOk_false_chk {db : DB} {chk : Bool} {readTs : Ts}
    {kv : WriteEntry} (h : intentStatusOk db chk readTs kv = false) : chk = true := by
  unfold intentStatusOk at h
  rw [Bool.not_eq_false'] at h
  exact (Bool.and_eq_true_iff.mp h).1

theorem writeIntentsGo_conflict_eq (readTs : Ts) (chk : Bool) (kv : WriteEntry)
    (post : List WriteEntry) :
    ∀ (pre : List WriteEntry) (db : DB) (undo : List (SubKey × SortKey)),
      intentsPrefixOk readTs chk pre db = true →
      intentStatusOk (applyIntents readTs pre db) chk readTs kv = false →
      writeIntentsGo readTs chk (pre ++ kv :: post) db undo =
        (false,
          stampIntents kAbortedTxnTs (undo ++ pre.map Prod.fst)
            (applyIntents readTs pre db)) := by
  intro pre
  induction pre with
  | nil =>
    intro db undo _ hfail
    have hfail' : intentStatusOk db chk readTs kv = false := hfail
    rw [List.nil_append, writeIntentsGo,
      if_neg (by rw [hfail']; exact Bool.false_ne_true)]
    rw [List.map_nil, List.append_nil, stampIntents_eq_foldl]
    rfl
  | cons e rest ih =>
    intro db undo hpre hfail
    have hpre' : (intentStatusOk db chk readTs e &&
        intentsPrefixOk readTs chk rest (applyIntent db readTs e)) = true := hpre
    have hsplit := Bool.and_eq_true_iff.mp hpre'
    have hfail' : intentStatusOk
        (applyIntents readTs rest (applyIntent db readTs e)) chk readTs kv = false :=
      hfail
    rw [List.cons_append, writeIntentsGo, if_pos hsplit.1]
    rw [ih (applyIntent db readTs e) (undo ++ [e.1]) hsplit.2 hfail']
    rw [List.map_cons, List.append_assoc, List.singleton_append]
    rfl

/-- C2.  If, while `CommitOrAbort` writes intents, some intent write is
refused by a conflicting foreign intent (which forces
`check_intent_locked`, i.e. the `Inlined` lock discipline), then exactly
the intents already written before the failing one are stamped
`kAbortedTxnTs` via `SetTs` in undo-list order, no further intents are
written (the final state depends only on the successful prefix), and
`Commit` returns `Abort`. -/
theorem occ_write_intent_conflict_abort (ctx : TxnContextOCC) (db : DB)
    (commitTs : Ts) (pre post : List WriteEntry) (kv : WriteEntry)
    (hrw : ctx.txnType = .readWriteTxn)
    (hws : ctx.writeSet = pre ++ kv :: post)
    (hpre : intentsPrefixOk ctx.readTs ctx.checkIntentLocked pre db = true)
    (hfail : intentStatusOk (applyIntents ctx.readTs pre db) ctx.checkIntentLocked
      ctx.readTs kv = false) :
    ctx.commitOrAbort db commitTs =
      (.abort,
        stampIntents kAbortedTxnTs (pre.map Prod.fst) (applyIntents ctx.readTs pre db)) ∧
    ctx.checkIntentLocked = true := by
  have hne : ¬(ctx.txnType = TxnType.readOnlyTxn) := by
    rw [hrw]
    exact fun hc => TxnType.noConfusion hc
  have hgo := writeIntentsGo_conflict_eq ctx.readTs ctx.checkIntentLocked kv post pre
    db [] hpre hfail
  rw [List.nil_append] at hgo
  constructor
  · unfold TxnContextOCC.commitOrAbort
    rw [if_neg hne]
    rw [show ctx.writeIntents ctx.checkIntentLocked db =
      (false, stampIntents kAbortedTxnTs (pre.map Prod.fst)
        (applyIntents ctx.readTs pre db)) from by
        rw [TxnContextOCC.writeIntents, hws]; exact hgo]
  · exact intentStatusOk_false_chk hfail

/-- C2 witness: a transaction under the `Inlined` discipline whose single
buffered delete meets a foreign intent (owner read-ts 5 ≠ 3); the commit
aborts with the subtable state unchanged (empty undo list). -/
theorem occ_write_intent_conflict_abort_witness :
    intentStatusOk [("t", [⟨"a", markLocked 5, some ⟨"a", []⟩⟩])]
      (TxnContextOCC.mk .readWriteTxn .kInlined 3 [(("t", "a"), none)] []).checkIntentLocked
      3 (("t", "a"), none) = false ∧
    (TxnContextOCC.mk .readWriteTxn .kInlined 3
        [(("t", "a"), none)] []).commitOrAbort
      [("t", [⟨"a", markLocked 5, some ⟨"a", []⟩⟩])] 9 =
      (.abort, [("t", [⟨"a", markLocked 5, some ⟨"a", []⟩⟩])]) := by
  have h := occ_write_intent_conflict_abort
    (TxnContextOCC.mk .readWriteTxn .kInlined 3 [(("t", "a"), none)] [])
    [("t", [⟨"a", markLocked 5, some ⟨"a", []⟩⟩])] 9 [] [] (("t", "a"), none)
    rfl rfl (by decide) (by decide)
  exact ⟨by decide, h.1⟩

end ArcaneDB
